import Mathlib

/-!
Shallow embedding of `checked_int_cast` (src/src/lib.rs).

The crate implements, for every ordered pair of the ten primitive integer
types (i8/i16/i32/i64/isize, u8/u16/u32/u64/usize), a checked conversion
returning `Option`: `None` on overflow or underflow, `Some` with the exact
value otherwise.  The three macro bodies `impl_signed_as_unsigned`,
`impl_signed_as_signed` and `impl_unsigned_as_any` are embedded below as
functions over a `Kind` record (bit width and signedness); integer values
are mathematical integers (`Int`), Rust `as` casts between integer types
are modelled by `wrapCast`, and the `MAX as f64` comparisons are modelled
by IEEE-754 round-to-nearest-even conversion of the (nonnegative) maxima
to double precision, computed exactly on `Nat`.

The pointer-sized kinds `isize`/`usize` have a platform width `w`; the
platforms Rust supports give `w ∈ {16, 32, 64}`, and theorems quantify
over those widths.
-/

/-- An integer kind: bit width and signedness.  One of the ten primitive
integer types of the source crate. -/
structure Kind where
  bits : Nat
  signed : Bool
  deriving DecidableEq, Repr

/-- `2 ^ n` as an integer (kept as a `Nat` power so the kernel computes it). -/
def pow2 (n : Nat) : Int := ((2 ^ n : Nat) : Int)

/-- The largest value representable in kind `k` (Rust `K::MAX`). -/
def Kind.max (k : Kind) : Int :=
  if k.signed then pow2 (k.bits - 1) - 1 else pow2 k.bits - 1

/-- The smallest value representable in kind `k` (Rust `K::MIN`). -/
def Kind.min (k : Kind) : Int :=
  if k.signed then -pow2 (k.bits - 1) else 0

/-- Rust integer `as` cast semantics into kind `k`: reduce modulo `2 ^ bits`
and, when the target is signed, reinterpret the residue as two's complement. -/
def wrapCast (k : Kind) (v : Int) : Int :=
  let m := v % pow2 k.bits
  if k.signed ∧ pow2 (k.bits - 1) ≤ m then m - pow2 k.bits else m

/-- Fuel-driven search for the IEEE-754 binary64 rounding exponent of `n`:
the least `e` with `n / 2 ^ e < 2 ^ 53`. -/
def f64exp : Nat → Nat → Nat
  | 0, _ => 0
  | fuel + 1, n => if n < 2 ^ 53 then 0 else f64exp fuel (n / 2) + 1

/-- The exact value of the IEEE-754 binary64 double nearest to `n`
(round-to-nearest, ties to even), for `n` below `2 ^ 117`; this models
Rust's `n as f64` on the nonnegative `MAX` constants of the ten kinds. -/
def roundF64 (n : Nat) : Nat :=
  let e := f64exp 64 n
  if e = 0 then n
  else
    let q := n / 2 ^ e
    let r := n % 2 ^ e
    let h := 2 ^ (e - 1)
    if h < r ∨ (r = h ∧ q % 2 = 1) then (q + 1) * 2 ^ e else q * 2 ^ e

/-- The guard `S::MAX as f64 > D::MAX as f64` used by all three conversion
macros to decide whether a value-level bound check is required. -/
def maxF64gt (S D : Kind) : Bool :=
  decide (roundF64 (Int.toNat (Kind.max D)) < roundF64 (Int.toNat (Kind.max S)))

/-- Embedding of the macro `impl_signed_as_unsigned` (lib.rs lines 43-56):
signed source, unsigned destination. -/
def impl_signed_as_unsigned (S D : Kind) (v : Int) : Option Int :=
  if v < 0 then none
  else if maxF64gt S D then
    if v > wrapCast S (Kind.max D) then none
    else some (wrapCast D v)
  else some (wrapCast D v)

/-- Embedding of the macro `impl_signed_as_signed` (lib.rs lines 58-71):
signed source, signed destination. -/
def impl_signed_as_signed (S D : Kind) (v : Int) : Option Int :=
  if maxF64gt S D then
    if v > wrapCast S (Kind.max D) then none
    else if v < wrapCast S (Kind.min D) then none
    else some (wrapCast D v)
  else some (wrapCast D v)

/-- Embedding of the macro `impl_unsigned_as_any` (lib.rs lines 73-83):
unsigned source, any destination. -/
def impl_unsigned_as_any (S D : Kind) (v : Int) : Option Int :=
  if maxF64gt S D then
    if v > wrapCast S (Kind.max D) then none
    else some (wrapCast D v)
  else some (wrapCast D v)

/-- The full conversion matrix: dispatch on the signedness of source and
destination exactly as `impl_signed_to_all` / `impl_unsigned_to_all`
(lib.rs lines 100-140) instantiate the three macros. -/
def convert (S D : Kind) (v : Int) : Option Int :=
  if S.signed then
    if D.signed then impl_signed_as_signed S D v
    else impl_signed_as_unsigned S D v
  else impl_unsigned_as_any S D v

/-- `isize` on a platform with pointer width `w`. -/
def isizeK (w : Nat) : Kind := ⟨w, true⟩

def i8K : Kind := ⟨8, true⟩

def i16K : Kind := ⟨16, true⟩

def i32K : Kind := ⟨32, true⟩

def i64K : Kind := ⟨64, true⟩

/-- `usize` on a platform with pointer width `w`. -/
def usizeK (w : Nat) : Kind := ⟨w, false⟩

def u8K : Kind := ⟨8, false⟩

def u16K : Kind := ⟨16, false⟩

def u32K : Kind := ⟨32, false⟩

def u64K : Kind := ⟨64, false⟩

/-- The ten integer kinds implemented by the crate, for pointer width `w`. -/
def kinds (w : Nat) : List Kind :=
  [isizeK w, i8K, i16K, i32K, i64K, usizeK w, u8K, u16K, u32K, u64K]

/-- The side conditions on a pair of kinds under which the three macro
bodies implement an exact range check.  Each conjunct is decidable and is
verified below, by computation, for all 100 pairs on each platform width:
the floating-point guard agrees with the exact comparison of the maxima,
the re-expressed bounds `D::MAX as S` / `D::MIN as S` are exact whenever
the guard lets them be evaluated, and when the guard is skipped for a
signed-to-signed pair the destination range really contains the source
range on the `MIN` side as well. -/
def pairOK (S D : Kind) : Prop :=
  0 < S.bits ∧ 0 < D.bits ∧
  maxF64gt S D = decide (Kind.max D < Kind.max S) ∧
  (Kind.max D < Kind.max S → wrapCast S (Kind.max D) = Kind.max D) ∧
  (S.signed = true → D.signed = true → Kind.max D < Kind.max S →
    wrapCast S (Kind.min D) = Kind.min D) ∧
  (S.signed = true → D.signed = true → Kind.max S ≤ Kind.max D →
    Kind.min D ≤ Kind.min S)

instance (S D : Kind) : Decidable (pairOK S D) := by
  unfold pairOK
  infer_instance

theorem pow2_pos (n : Nat) : 0 < pow2 n := by
  unfold pow2
  exact_mod_cast Nat.pos_pow_of_pos n (by norm_num)

theorem pow2_two_mul (n : Nat) (h : 0 < n) : pow2 n = 2 * pow2 (n - 1) := by
  unfold pow2
  conv_lhs => rw [show n = (n - 1) + 1 by omega]
  rw [pow_succ]
  push_cast
  ring

theorem min_nonpos (k : Kind) : Kind.min k ≤ 0 := by
  have := pow2_pos (k.bits - 1)
  unfold Kind.min
  split <;> omega

/-- Rust `as` casts are the identity on values already representable in the
destination kind. -/
theorem wrapCast_eq_self (k : Kind) (hb : 0 < k.bits) (v : Int)
    (h1 : Kind.min k ≤ v) (h2 : v ≤ Kind.max k) : wrapCast k v = v := by
  have hp := pow2_pos k.bits
  have hp1 := pow2_pos (k.bits - 1)
  have hsplit := pow2_two_mul k.bits hb
  unfold Kind.min at h1
  unfold Kind.max at h2
  unfold wrapCast
  cases hs : k.signed with
  | false =>
    simp only [hs] at h1 h2 ⊢
    simp only [Bool.false_eq_true, if_false, false_and] at h1 h2 ⊢
    rw [Int.emod_eq_of_lt h1 (by omega)]
  | true =>
    simp only [hs, if_true, true_and] at h1 h2 ⊢
    by_cases hv0 : 0 ≤ v
    · rw [Int.emod_eq_of_lt hv0 (by omega), if_neg (by omega)]
    · have hge : 0 ≤ v + pow2 k.bits := by omega
      have hlt : v + pow2 k.bits < pow2 k.bits := by omega
      have hm : v % pow2 k.bits = v + pow2 k.bits := by
        have h3 : v % pow2 k.bits = (v + pow2 k.bits * 1) % pow2 k.bits := by
          rw [Int.add_mul_emod_self_left]
        rw [h3, mul_one, Int.emod_eq_of_lt hge hlt]
      rw [hm, if_pos (by omega)]
      omega

theorem pairOK_all16 : ∀ S ∈ kinds 16, ∀ D ∈ kinds 16, pairOK S D := by decide

theorem pairOK_all32 : ∀ S ∈ kinds 32, ∀ D ∈ kinds 32, pairOK S D := by decide

theorem pairOK_all64 : ∀ S ∈ kinds 64, ∀ D ∈ kinds 64, pairOK S D := by decide

theorem pairOK_of_mem {w : Nat} (hw : w = 16 ∨ w = 32 ∨ w = 64) {S D : Kind}
    (hS : S ∈ kinds w) (hD : D ∈ kinds w) : pairOK S D := by
  rcases hw with h | h | h <;> subst h
  · exact pairOK_all16 S hS D hD
  · exact pairOK_all32 S hS D hD
  · exact pairOK_all64 S hS D hD

/-- Behaviour of the `impl_unsigned_as_any` macro body: under the decidable
side conditions it performs an exact range check against the destination. -/
theorem impl_unsigned_as_any_spec (S D : Kind) (hDb : 0 < D.bits)
    (hf : maxF64gt S D = decide (Kind.max D < Kind.max S))
    (hcast : Kind.max D < Kind.max S → wrapCast S (Kind.max D) = Kind.max D)
    (v : Int) (h0 : 0 ≤ v) (h2 : v ≤ Kind.max S) :
    impl_unsigned_as_any S D v =
      if Kind.min D ≤ v ∧ v ≤ Kind.max D then some v else none := by
  have hDmin := min_nonpos D
  unfold impl_unsigned_as_any
  rw [hf]
  simp only [decide_eq_true_eq]
  by_cases hlt : Kind.max D < Kind.max S
  · rw [if_pos hlt, hcast hlt]
    by_cases hgt : Kind.max D < v
    · rw [if_pos hgt, if_neg (by omega)]
    · rw [if_neg hgt, wrapCast_eq_self D hDb v (by omega) (by omega),
        if_pos (show Kind.min D ≤ v ∧ v ≤ Kind.max D by omega)]
  · rw [if_neg hlt, wrapCast_eq_self D hDb v (by omega) (by omega),
      if_pos (show Kind.min D ≤ v ∧ v ≤ Kind.max D by omega)]

/-- Behaviour of the `impl_signed_as_unsigned` macro body: the negativity
test plus the guarded upper-bound test give an exact range check. -/
theorem impl_signed_as_unsigned_spec (S D : Kind) (hDb : 0 < D.bits)
    (hDu : D.signed = false)
    (hf : maxF64gt S D = decide (Kind.max D < Kind.max S))
    (hcast : Kind.max D < Kind.max S → wrapCast S (Kind.max D) = Kind.max D)
    (v : Int) (h2 : v ≤ Kind.max S) :
    impl_signed_as_unsigned S D v =
      if Kind.min D ≤ v ∧ v ≤ Kind.max D then some v else none := by
  have hDmin0 : Kind.min D = 0 := by simp [Kind.min, hDu]
  unfold impl_signed_as_unsigned
  by_cases hneg : v < 0
  · rw [if_pos hneg, if_neg (by omega)]
  · rw [if_neg hneg, hf]
    simp only [decide_eq_true_eq]
    by_cases hlt : Kind.max D < Kind.max S
    · rw [if_pos hlt, hcast hlt]
      by_cases hgt : Kind.max D < v
      · rw [if_pos hgt, if_neg (by omega)]
      · rw [if_neg hgt, wrapCast_eq_self D hDb v (by omega) (by omega),
          if_pos (show Kind.min D ≤ v ∧ v ≤ Kind.max D by omega)]
    · rw [if_neg hlt, wrapCast_eq_self D hDb v (by omega) (by omega),
        if_pos (show Kind.min D ≤ v ∧ v ≤ Kind.max D by omega)]

/-- Behaviour of the `impl_signed_as_signed` macro body: the two guarded
bound tests give an exact range check, and when the guard is skipped the
destination range contains the source range. -/
theorem impl_signed_as_signed_spec (S D : Kind) (hDb : 0 < D.bits)
    (hf : maxF64gt S D = decide (Kind.max D < Kind.max S))
    (hcast : Kind.max D < Kind.max S → wrapCast S (Kind.max D) = Kind.max D)
    (hcmin : Kind.max D < Kind.max S → wrapCast S (Kind.min D) = Kind.min D)
    (hmono : Kind.max S ≤ Kind.max D → Kind.min D ≤ Kind.min S)
    (v : Int) (h1 : Kind.min S ≤ v) (h2 : v ≤ Kind.max S) :
    impl_signed_as_signed S D v =
      if Kind.min D ≤ v ∧ v ≤ Kind.max D then some v else none := by
  unfold impl_signed_as_signed
  rw [hf]
  simp only [decide_eq_true_eq]
  by_cases hlt : Kind.max D < Kind.max S
  · rw [if_pos hlt, hcast hlt, hcmin hlt]
    by_cases hgt : Kind.max D < v
    · rw [if_pos hgt, if_neg (by omega)]
    · rw [if_neg hgt]
      by_cases hlo : v < Kind.min D
      · rw [if_pos hlo, if_neg (by omega)]
      · rw [if_neg hlo, wrapCast_eq_self D hDb v (by omega) (by omega),
          if_pos (show Kind.min D ≤ v ∧ v ≤ Kind.max D by omega)]
  · have hm := hmono (by omega)
    rw [if_neg hlt, wrapCast_eq_self D hDb v (by omega) (by omega),
      if_pos (show Kind.min D ≤ v ∧ v ≤ Kind.max D by omega)]

/-- The conversion matrix performs an exact range check for every pair of
kinds satisfying the decidable side conditions. -/
theorem convert_spec (S D : Kind) (h : pairOK S D) (v : Int)
    (h1 : Kind.min S ≤ v) (h2 : v ≤ Kind.max S) :
    convert S D v = if Kind.min D ≤ v ∧ v ≤ Kind.max D then some v else none := by
  obtain ⟨hSb, hDb, hf, hcmax, hcmin, hmono⟩ := h
  unfold convert
  cases hSs : S.signed with
  | true =>
    cases hDs : D.signed with
    | true =>
      simpa [hSs, hDs] using
        impl_signed_as_signed_spec S D hDb hf hcmax (hcmin hSs hDs)
          (hmono hSs hDs) v h1 h2
    | false =>
      simpa [hSs, hDs] using
        impl_signed_as_unsigned_spec S D hDb hDs hf hcmax v h2
  | false =>
    have h0 : 0 ≤ v := by
      have : Kind.min S = 0 := by simp [Kind.min, hSs]
      omega
    simpa [hSs] using
      impl_unsigned_as_any_spec S D hDb hf hcmax v h0 h2

-- The embedding reproduces the crate's own test suite.
example : convert u64K i8K 0 = some 0 := by decide
example : convert i64K i8K (-40) = some (-40) := by decide
example : convert i64K i8K (-321) = none := by decide
example : convert u64K u16K 40000000 = none := by decide
example : convert u64K i32K 40000000 = some 40000000 := by decide
example : convert i8K u64K (-4) = none := by decide
example : convert i32K (usizeK 64) (-1) = none := by decide
example : convert i32K (usizeK 64) (Kind.min i32K) = none := by decide

/-- Claim C1: for every source kind S and destination kind D among the ten
kinds (at every supported pointer width) and every value v representable
in S, the checked conversion returns `some v` (the mathematically equal
value) exactly when v lies in [D.min, D.max], and `none` otherwise; no
truncated, wrapped or otherwise inexact result is ever produced. -/
theorem c1_convert_exact_range_check {w : Nat} (hw : w = 16 ∨ w = 32 ∨ w = 64)
    (S D : Kind) (hS : S ∈ kinds w) (hD : D ∈ kinds w)
    (v : Int) (hv : Kind.min S ≤ v ∧ v ≤ Kind.max S) :
    convert S D v = if Kind.min D ≤ v ∧ v ≤ Kind.max D then some v else none :=
  convert_spec S D (pairOK_of_mem hw hS hD) v hv.1 hv.2

theorem c1_witness : convert u32K u8K 256 = none := by
  rw [c1_convert_exact_range_check (w := 64) (Or.inr (Or.inr rfl)) u32K u8K
    (by decide) (by decide) 256 (by decide)]
  decide

/-- Claim C2: for every signed source kind S, unsigned destination kind D,
and value v of S with v < 0, the checked conversion returns `none`; the
embedded macro body tests negativity first, before any range guard, so the
result needs none of the range side conditions. -/
theorem c2_negative_to_unsigned_none {w : Nat} (hw : w = 16 ∨ w = 32 ∨ w = 64)
    (S D : Kind) (hS : S ∈ kinds w) (hD : D ∈ kinds w)
    (hSs : S.signed = true) (hDu : D.signed = false)
    (v : Int) (hv : Kind.min S ≤ v ∧ v ≤ Kind.max S) (hneg : v < 0) :
    convert S D v = none := by
  have hdisp : convert S D v = impl_signed_as_unsigned S D v := by
    unfold convert
    rw [hSs, hDu]
    simp
  rw [hdisp]
  unfold impl_signed_as_unsigned
  rw [if_pos hneg]

theorem c2_witness : convert i8K u64K (-4) = none :=
  c2_negative_to_unsigned_none (w := 64) (Or.inr (Or.inr rfl)) i8K u64K
    (by decide) (by decide) rfl rfl (-4) (by decide) (by decide)

/-- Claim C3: converting any value of any of the ten kinds to the kind
itself succeeds and preserves the value. -/
theorem c3_identity {w : Nat} (hw : w = 16 ∨ w = 32 ∨ w = 64)
    (K : Kind) (hK : K ∈ kinds w)
    (v : Int) (hv : Kind.min K ≤ v ∧ v ≤ Kind.max K) :
    convert K K v = some v := by
  rw [convert_spec K K (pairOK_of_mem hw hK hK) v hv.1 hv.2, if_pos hv]

theorem c3_witness : convert i32K i32K (-5) = some (-5) :=
  c3_identity (w := 64) (Or.inr (Or.inr rfl)) i32K (by decide) (-5) (by decide)

/-- Claim C4: whenever kind A's representable range is a subset of kind
B's range, converting any value of A to B returns `some`. -/
theorem c4_range_subset_some {w : Nat} (hw : w = 16 ∨ w = 32 ∨ w = 64)
    (A B : Kind) (hA : A ∈ kinds w) (hB : B ∈ kinds w)
    (hsub : Kind.min B ≤ Kind.min A ∧ Kind.max A ≤ Kind.max B)
    (v : Int) (hv : Kind.min A ≤ v ∧ v ≤ Kind.max A) :
    (convert A B v).isSome = true := by
  rw [convert_spec A B (pairOK_of_mem hw hA hB) v hv.1 hv.2,
    if_pos (show Kind.min B ≤ v ∧ v ≤ Kind.max B by omega)]
  rfl

theorem c4_witness : (convert u8K i64K 200).isSome = true :=
  c4_range_subset_some (w := 64) (Or.inr (Or.inr rfl)) u8K i64K
    (by decide) (by decide) (by decide) 200 (by decide)

/-- Claim C5: when the wide-domain comparison decides the source range is
not strictly larger than the destination range, the floating-point guard
is false so the value-level bound check is skipped; consequently the
conversion always succeeds when the source is unsigned or both kinds are
signed, and succeeds for every nonnegative input when the source is
signed and the destination unsigned. -/
theorem c5_guard_skipped {w : Nat} (hw : w = 16 ∨ w = 32 ∨ w = 64)
    (S D : Kind) (hS : S ∈ kinds w) (hD : D ∈ kinds w)
    (hle : Kind.max S ≤ Kind.max D)
    (v : Int) (hv : Kind.min S ≤ v ∧ v ≤ Kind.max S) :
    maxF64gt S D = false ∧
    (S.signed = false ∨ D.signed = true → convert S D v = some v) ∧
    (S.signed = true → D.signed = false → 0 ≤ v → convert S D v = some v) := by
  have hOK := pairOK_of_mem hw hS hD
  have hf := hOK.2.2.1
  have hmono := hOK.2.2.2.2.2
  have hDmin := min_nonpos D
  refine ⟨?_, ?_, ?_⟩
  · rw [hf, decide_eq_false_iff_not]
    omega
  · intro hcase
    have hlo : Kind.min D ≤ v := by
      rcases hcase with hSu | hDs
      · have h0 : Kind.min S = 0 := by simp [Kind.min, hSu]
        omega
      · cases hSs : S.signed with
        | false =>
          have h0 : Kind.min S = 0 := by simp [Kind.min, hSs]
          omega
        | true =>
          have := hmono hSs hDs hle
          omega
    rw [convert_spec S D hOK v hv.1 hv.2, if_pos ⟨hlo, by omega⟩]
  · intro hSs hDu h0
    rw [convert_spec S D hOK v hv.1 hv.2, if_pos ⟨by omega, by omega⟩]

theorem c5_witness :
    maxF64gt u8K u16K = false ∧
    (u8K.signed = false ∨ u16K.signed = true → convert u8K u16K 3 = some 3) ∧
    (u8K.signed = true → u16K.signed = false → 0 ≤ (3 : Int) →
      convert u8K u16K 3 = some 3) :=
  c5_guard_skipped (w := 64) (Or.inr (Or.inr rfl)) u8K u16K
    (by decide) (by decide) (by decide) 3 (by decide)

/-- Claim C6: for every ordered pair of the ten kinds, the double-precision
comparison of the two maxima decides exactly the same ordering as the
exact integer comparison of the maxima. -/
theorem c6_f64_comparison_exact {w : Nat} (hw : w = 16 ∨ w = 32 ∨ w = 64)
    (S D : Kind) (hS : S ∈ kinds w) (hD : D ∈ kinds w) :
    maxF64gt S D = decide (Kind.max D < Kind.max S) :=
  (pairOK_of_mem hw hS hD).2.2.1

theorem c6_witness : maxF64gt u64K i64K = decide (Kind.max i64K < Kind.max u64K) :=
  c6_f64_comparison_exact (w := 64) (Or.inr (Or.inr rfl)) u64K i64K
    (by decide) (by decide)

/-- Claim C7: the conversion is total — it returns either the exact value
or `none`, never anything else — and the re-expressions of the destination
bounds in the source representation are exact whenever the guard that
precedes them lets them be evaluated (the MIN re-expression is evaluated
only on signed-to-signed pairs). -/
theorem c7_totality_and_exact_bounds {w : Nat} (hw : w = 16 ∨ w = 32 ∨ w = 64)
    (S D : Kind) (hS : S ∈ kinds w) (hD : D ∈ kinds w)
    (v : Int) (hv : Kind.min S ≤ v ∧ v ≤ Kind.max S) :
    (convert S D v = some v ∨ convert S D v = none) ∧
    (Kind.max D < Kind.max S → wrapCast S (Kind.max D) = Kind.max D) ∧
    (S.signed = true → D.signed = true → Kind.max D < Kind.max S →
      wrapCast S (Kind.min D) = Kind.min D) := by
  have hOK := pairOK_of_mem hw hS hD
  refine ⟨?_, hOK.2.2.2.1, hOK.2.2.2.2.1⟩
  rw [convert_spec S D hOK v hv.1 hv.2]
  by_cases hr : Kind.min D ≤ v ∧ v ≤ Kind.max D
  · left
    rw [if_pos hr]
  · right
    rw [if_neg hr]

theorem c7_witness :
    (convert i64K u8K 300 = some 300 ∨ convert i64K u8K 300 = none) ∧
    (Kind.max u8K < Kind.max i64K → wrapCast i64K (Kind.max u8K) = Kind.max u8K) ∧
    (i64K.signed = true → u8K.signed = true → Kind.max u8K < Kind.max i64K →
      wrapCast i64K (Kind.min u8K) = Kind.min u8K) :=
  c7_totality_and_exact_bounds (w := 64) (Or.inr (Or.inr rfl)) i64K u8K
    (by decide) (by decide) 300 (by decide)

/-- Claim C8: every checked conversion is deterministic and stateless — it
is a pure function of the source kind, the destination kind and the input
value alone, so two calls with equal inputs yield equal results. -/
theorem c8_deterministic (S D : Kind) (v₁ v₂ : Int) (h : v₁ = v₂) :
    convert S D v₁ = convert S D v₂ := by
  rw [h]

theorem c8_witness : convert i32K u8K 7 = convert i32K u8K 7 :=
  c8_deterministic i32K u8K 7 7 rfl

/-- Claim C9: the literal boundary scenarios — u32 256 to u8 is rejected,
u32 255 to u8 is exact, u32 256 to u16 is exact. -/
theorem c9_literal_boundaries :
    convert u32K u8K 256 = none ∧
    convert u32K u8K 255 = some 255 ∧
    convert u32K u16K 256 = some 256 := by
  decide

/-- Claim C10: round trip — whenever converting a representable value v of
S to D returns `some d`, converting d back from D to S returns `some v`. -/
theorem c10_round_trip {w : Nat} (hw : w = 16 ∨ w = 32 ∨ w = 64)
    (S D : Kind) (hS : S ∈ kinds w) (hD : D ∈ kinds w)
    (v : Int) (hv : Kind.min S ≤ v ∧ v ≤ Kind.max S)
    (d : Int) (h : convert S D v = some d) :
    convert D S d = some v := by
  have hOK := pairOK_of_mem hw hS hD
  have hOK2 := pairOK_of_mem hw hD hS
  rw [convert_spec S D hOK v hv.1 hv.2] at h
  by_cases hr : Kind.min D ≤ v ∧ v ≤ Kind.max D
  · rw [if_pos hr] at h
    have hd : v = d := Option.some.inj h
    subst hd
    rw [convert_spec D S hOK2 v hr.1 hr.2, if_pos hv]
  · rw [if_neg hr] at h
    exact absurd h (by simp)

theorem c10_witness : convert u16K u8K 255 = some 255 :=
  c10_round_trip (w := 64) (Or.inr (Or.inr rfl)) u8K u16K
    (by decide) (by decide) 255 (by decide) 255 (by decide)
